import Mathlib

/-
Shallow embedding of the deterministic discrete-event simulator
(cooperative task runtime, virtual time driver, virtual network,
UDP sockets, simulation driver).

Conventions of the embedding:
* IPv4 addresses are modelled by their 32-bit numeric value (a natural);
  the predicates below mirror the standard-library classification used by
  the source (loopback 127.x.y.z, unspecified 0.0.0.0, multicast 224-239.x).
* Timestamps and durations are naturals (nanoseconds).
* Task ids and waker ids are naturals.
* `HashMap`s are modelled by association lists keyed by decidable equality,
  `HashSet`s and `BTreeSet`s by `Finset`s.
* A weak reference that may be dead is an `Option`: `none` is a dead entry.
* A Rust function that can panic returns an `Option`, `none` being the panic.
* The seeded PRNG is modelled by a cursor into two abstract draw streams
  `u01` (the uniform `[0,1)` float draws, as rationals) and `udur`
  (the uniform duration draws); each sample advances the cursor by one,
  which makes the number and order of draws observable.
-/

namespace Madsim

/- ## Addresses (src/net/ip_addr.rs, src/net/socket_addr.rs) -/

abbrev Ip := ℕ

def octet0 (ip : Ip) : ℕ := ip / 16777216 % 256

def ipIsLoopback (ip : Ip) : Prop := octet0 ip = 127

def ipIsUnspecified (ip : Ip) : Prop := ip = 0

def ipIsMulticast (ip : Ip) : Prop := 224 ≤ octet0 ip ∧ octet0 ip ≤ 239

instance (ip : Ip) : Decidable (ipIsLoopback ip) := by unfold ipIsLoopback; infer_instance

instance (ip : Ip) : Decidable (ipIsUnspecified ip) := by unfold ipIsUnspecified; infer_instance

instance (ip : Ip) : Decidable (ipIsMulticast ip) := by unfold ipIsMulticast; infer_instance

structure SockAddr where
  ip : Ip
  port : ℕ
  deriving DecidableEq, Repr

/- ## Runtime state (src/src/sim/runtime/state.rs)

`State` holds a FIFO `task_queue` of task ids and a map `tasks` from id to
task; the map is modelled by its key list (the stored futures are opaque),
so `tasks.remove(&id)` is membership test plus `List.erase`. -/

structure RState where
  taskQueue : List ℕ
  tasks : List ℕ
  deriving DecidableEq, Repr

/-- `State::take_task`: pop ids from the front of the queue until one is
present in the task map; remove and return it.  Ids absent from the map
(already resolved or cancelled tasks) are discarded. -/
def takeTaskGo : List ℕ → List ℕ → Option (ℕ × List ℕ × List ℕ)
  | [], _ => none
  | id :: rest, tasks =>
    if id ∈ tasks then some (id, rest, tasks.erase id) else takeTaskGo rest tasks

/-- `State::push_task`: enqueue the id at the back (this is what a waker does). -/
def pushTask (s : RState) (id : ℕ) : RState :=
  { s with taskQueue := s.taskQueue ++ [id] }

/-- `State::add_task`: insert into the map (assert the id was absent — the
panic is the `none` case) and push the id onto the queue. -/
def addTask (s : RState) (id : ℕ) : Option RState :=
  if id ∈ s.tasks then none
  else some (pushTask { s with tasks := id :: s.tasks } id)

/-- `Runtime::submit` (behind `spawn`): `add_task` followed by one more
`push_task` of the same id. -/
def submitTask (s : RState) (id : ℕ) : Option RState :=
  (addTask s id).map (fun s1 => pushTask s1 id)

/-- `Runtime::next_step`.  `pending id` tells whether polling the task with
this id leaves it pending (the task bodies are user code, abstracted by this
function).  Returns the polled id (`none` if no task was polled) and the new
state; when `take_task` exhausts the queue every popped id was discarded, so
the queue is left empty. -/
def runtimeNextStep (pending : ℕ → Bool) (s : RState) : Option (Option ℕ × RState) :=
  match takeTaskGo s.taskQueue s.tasks with
  | none => some (none, ⟨[], s.tasks⟩)
  | some (id, q, m) =>
    if pending id then (addTask ⟨q, m⟩ id).map (fun s1 => (some id, s1))
    else some (some id, (⟨q, m⟩ : RState))

/-- `Runtime::has_work`: the queue is non-empty. -/
def runtimeHasWork (s : RState) : Prop := s.taskQueue ≠ []

instance (s : RState) : Decidable (runtimeHasWork s) := by unfold runtimeHasWork; infer_instance

/- ## Binary heaps

Both the time driver and the network store their pending entries in a
`BinaryHeap` ordered by earliest timestamp first.  The heap is modelled by
the list of its elements; popping removes the first element of minimal key
(tie order among equal keys is unspecified by the contract). -/

def popMinBy {α : Type} (key : α → ℕ) : List α → Option (α × List α)
  | [] => none
  | x :: xs =>
    match popMinBy key xs with
    | none => some (x, [])
    | some (y, ys) => if key x ≤ key y then some (x, xs) else some (y, x :: ys)

/- ## Time driver (src/src/sim/time.rs)

A `TimerEntry` is a timestamp plus a waker slot; the waker is identified by
`wakerId` so that firing is observable. -/

structure TimerEntry where
  wakerId : ℕ
  timestamp : ℕ
  deriving DecidableEq, Repr

structure TimeState where
  heap : List TimerEntry
  time : ℕ
  deriving DecidableEq, Repr

/-- `TimeDriver::next_timer`: peek the minimum. -/
def tdNextTimer (s : TimeState) : Option TimerEntry :=
  (popMinBy TimerEntry.timestamp s.heap).map Prod.fst

/-- `TimeDriver::advance_to_next_timer`: pop the minimum, set the clock to
its timestamp and fire its waker (the fired entry is returned). -/
def tdAdvanceNext (s : TimeState) : Option (TimerEntry × TimeState) :=
  (popMinBy TimerEntry.timestamp s.heap).map (fun p => (p.1, ⟨p.2, p.1.timestamp⟩))

/-- Loop of `TimeDriver::advance_to_time`: while the next entry has
timestamp `≤ tgt`, pop and fire it.  `fuel` bounds the iteration count; the
heap length suffices. -/
def tdAdvanceGo (tgt : ℕ) : ℕ → TimeState → List TimerEntry → TimeState × List TimerEntry
  | 0, s, acc => (s, acc)
  | fuel + 1, s, acc =>
    match popMinBy TimerEntry.timestamp s.heap with
    | none => (s, acc)
    | some (e, rest) =>
      if e.timestamp ≤ tgt then tdAdvanceGo tgt fuel ⟨rest, e.timestamp⟩ (acc ++ [e])
      else (s, acc)

/-- `TimeDriver::advance_to_time`: assert `current ≤ tgt` (the panic is the
`none` case), fire every entry with timestamp `≤ tgt`, then set the clock to
exactly `tgt`.  Returns the new state and the fired entries in pop order. -/
def tdAdvanceToTime (tgt : ℕ) (s : TimeState) : Option (TimeState × List TimerEntry) :=
  if s.time ≤ tgt then
    let r := tdAdvanceGo tgt s.heap.length s []
    some (⟨r.1.heap, tgt⟩, r.2)
  else none

/- ## Network topology (src/src/sim/net/topology.rs) -/

structure Topology where
  nodes : Finset ℕ
  links : Finset (ℕ × ℕ)
  deriving DecidableEq

/-- `NetworkTopology::register_node`: insert the ip into the node set, then
add links `(ip, o)` and `(o, ip)` for every registered node `o` (including
the self-link, since the iteration sees the fresh node). -/
def registerNode (t : Topology) (ip : ℕ) : Topology :=
  let nodes := insert ip t.nodes
  { nodes := nodes
    links := t.links ∪ nodes.image (fun o => (ip, o)) ∪ nodes.image (fun o => (o, ip)) }

/-- One turn of the outer `separate` loop for group member `s`: remove the
links `(s, o)` and `(o, s)` for every registered node `o` outside the group. -/
def sepOne (g : List ℕ) (t : Topology) (s : ℕ) : Topology :=
  { t with
    links := t.links.filter (fun l =>
      ¬ ((l.1 = s ∧ l.2 ∈ t.nodes ∧ l.2 ∉ g) ∨ (l.2 = s ∧ l.1 ∈ t.nodes ∧ l.1 ∉ g))) }

/-- `NetworkTopology::separate`, looping over the group members; a group
member that is not registered panics (the `none` case) before its own
removals are performed. -/
def separateGo (g : List ℕ) : List ℕ → Topology → Option Topology
  | [], t => some t
  | s :: rest, t => if s ∈ t.nodes then separateGo g rest (sepOne g t s) else none

def separate (t : Topology) (g : List ℕ) : Option Topology :=
  separateGo g g t

/-- `NetworkTopology::hops`: `none` if either end is unregistered, `0` on
self, `1` on a direct link, `none` otherwise. -/
def hops (t : Topology) (a b : ℕ) : Option ℕ :=
  if a ∉ t.nodes ∨ b ∉ t.nodes then none
  else if a = b then some 0
  else if (a, b) ∈ t.links then some 1
  else none

/- ## Datagrams and receive buffers (src/src/sim/net/datagram.rs) -/

structure Datagram where
  sender : SockAddr
  receiver : SockAddr
  data : List ℕ
  deriving DecidableEq, Repr

structure Buffer where
  capacity : ℕ
  len : ℕ
  buf : List Datagram
  deriving DecidableEq, Repr

/-- `Buffer::add_datagram`: append if the running byte total stays within
capacity; report whether the datagram fit. -/
def addDatagram (b : Buffer) (d : Datagram) : Bool × Buffer :=
  if d.data.length + b.len ≤ b.capacity then
    (true, { b with len := b.len + d.data.length, buf := b.buf ++ [d] })
  else (false, b)

/-- `Buffer::take_datagram`: pop the front and decrement the byte total. -/
def takeDatagram (b : Buffer) : Option (Datagram × Buffer) :=
  match b.buf with
  | [] => none
  | d :: rest => some (d, { b with len := b.len - d.data.length, buf := rest })

/- ## Network state (src/src/sim/net.rs, src/src/sim/net/registry.rs)

A registry entry is `some sock` for a live socket and `none` for a dead weak
reference; an absent key has no entry at all.  The socket-data's
`local_addr` is its registry key. -/

structure SockState where
  recvBuf : Buffer
  recvWaiters : List ℕ
  deriving DecidableEq, Repr

structure NetEvent where
  timestamp : ℕ
  sender : SockAddr
  receiver : SockAddr
  data : List ℕ
  deriving DecidableEq, Repr

abbrev Registry := List (SockAddr × Option SockState)

def regLookup (reg : Registry) (a : SockAddr) : Option (Option SockState) :=
  (reg.find? (fun p => p.1 = a)).map Prod.snd

def regUpdate (reg : Registry) (a : SockAddr) (v : Option SockState) : Registry :=
  reg.map (fun p => if p.1 = a then (p.1, v) else p)

structure NetworkState where
  registry : Registry
  rngCursor : ℕ
  minDelay : ℕ
  maxDelay : ℕ
  dropRate : ℚ
  events : List NetEvent
  topology : Topology
  deriving DecidableEq

/-- Tail of `NetworkHandle::send_upd_packet` past the drop-rate check:
route via `hops` (no route means dropped), draw the delay, multiply by the
hop count and schedule the delivery event at `now + delay`. -/
def sendSchedule (udur : ℕ → ℕ) (nowT : ℕ) (src dst : SockAddr) (packet : List ℕ)
    (st1 : NetworkState) : Bool × NetworkState :=
  match hops st1.topology src.ip dst.ip with
  | none => (true, st1)
  | some h =>
    let d := udur st1.rngCursor
    let st2 := { st1 with rngCursor := st1.rngCursor + 1 }
    (false, { st2 with events := st2.events ++ [⟨nowT + d * h, src, dst, packet⟩] })

/-- `NetworkHandle::send_upd_packet`.  `u01` and `udur` are the abstract
PRNG draw streams (see the header); `nowT` is the caller's current logical
time.  Returns `dropped` and the new network state; `none` is the panic on
an unregistered `from` address.  The drop-rate sample is drawn only when
the two socket addresses differ (the `&&` short-circuits). -/
def sendUpdPacket (u01 : ℕ → ℚ) (udur : ℕ → ℕ) (nowT : ℕ)
    (src dst : SockAddr) (packet : List ℕ) (st : NetworkState) :
    Option (Bool × NetworkState) :=
  match regLookup st.registry src with
  | none => none
  | some none => some (true, st)
  | some (some _) =>
    match regLookup st.registry dst with
    | none => some (true, st)
    | some none => some (true, st)
    | some (some _) =>
      if dst = src then some (sendSchedule udur nowT src dst packet st)
      else
        let x := u01 st.rngCursor
        let st1 := { st with rngCursor := st.rngCursor + 1 }
        if x < st.dropRate then some (true, st1)
        else some (sendSchedule udur nowT src dst packet st1)

/-- Registry-level action of `NetworkHandle::handle_event`: if the receiver
has a live entry, offer the datagram to its buffer (the fit result is
ignored) and drain-and-wake every recv-waiter; otherwise do nothing.
Returns the updated registry and the woken waiter ids. -/
def deliverOne (reg : Registry) (ev : NetEvent) : Registry × List ℕ :=
  match regLookup reg ev.receiver with
  | some (some sock) =>
    let r := addDatagram sock.recvBuf ⟨ev.sender, ev.receiver, ev.data⟩
    (regUpdate reg ev.receiver (some ⟨r.2, []⟩), sock.recvWaiters)
  | _ => (reg, [])

def handleEvent (st : NetworkState) (ev : NetEvent) : NetworkState × List ℕ :=
  let r := deliverOne st.registry ev
  ({ st with registry := r.1 }, r.2)

def foldDeliver (reg : Registry) (l : List NetEvent) : Registry :=
  l.foldl (fun r e => (deliverOne r e).1) reg

/-- `NetworkHandle::next_event_timestamp`: peek the event heap. -/
def netNextEventTs (st : NetworkState) : Option ℕ :=
  (popMinBy NetEvent.timestamp st.events).map (fun p => p.1.timestamp)

/-- Loop of `NetworkHandle::advance_to_time`: while the earliest event has
timestamp `≤ tgt`, pop it and handle it.  Accumulates the handled events
with the waiters each one woke, in pop order. -/
def netAdvanceGo (tgt : ℕ) :
    ℕ → NetworkState → List (NetEvent × List ℕ) → NetworkState × List (NetEvent × List ℕ)
  | 0, st, acc => (st, acc)
  | fuel + 1, st, acc =>
    match popMinBy NetEvent.timestamp st.events with
    | none => (st, acc)
    | some (e, rest) =>
      if e.timestamp ≤ tgt then
        let r := handleEvent { st with events := rest } e
        netAdvanceGo tgt fuel r.1 (acc ++ [(e, r.2)])
      else (st, acc)

def netAdvanceToTime (tgt : ℕ) (st : NetworkState) :
    NetworkState × List (NetEvent × List ℕ) :=
  netAdvanceGo tgt st.events.length st []

/- ## Node (src/src/sim/node.rs) -/

structure NodeInfo where
  ip : ℕ
  udpSendBufferSize : ℕ
  udpRecvBufferSize : ℕ
  deriving DecidableEq, Repr

structure NodeCore where
  runtime : RState
  timeDriver : TimeState
  info : NodeInfo
  freePorts : Finset ℕ
  deriving DecidableEq

/-- `NodeState::new` seeds the free-port pool with `1..=u16::MAX`. -/
def initFreePorts : Finset ℕ := Finset.Icc 1 65535

/-- `NodeHandle::take_port`: `some p` removes and returns `p` when free;
`none` pops the smallest free port. -/
def takePort (node : NodeCore) (p : Option ℕ) : Option ℕ × NodeCore :=
  match p with
  | some p =>
    if p ∈ node.freePorts then (some p, { node with freePorts := node.freePorts.erase p })
    else (none, node)
  | none =>
    match node.freePorts.min with
    | some q => (some q, { node with freePorts := node.freePorts.erase q })
    | none => (none, node)

/-- `NodeHandle::return_port`: re-insert, asserting the port was absent
(the panic is the `none` case). -/
def returnPort (node : NodeCore) (p : ℕ) : Option NodeCore :=
  if p ∈ node.freePorts then none
  else some { node with freePorts := insert p node.freePorts }

def mergeMin : Option ℕ → Option ℕ → Option ℕ
  | none, b => b
  | some a, none => some a
  | some a, some b => some (min a b)

/-- `NodeHandle::next_event_timestamp`: "now" when the runtime has queued
work, else the earlier of the next timer and the next network event. -/
def nextEventTimestamp (node : NodeCore) (net : NetworkState) : Option ℕ :=
  if node.runtime.taskQueue ≠ [] then some node.timeDriver.time
  else mergeMin ((tdNextTimer node.timeDriver).map TimerEntry.timestamp) (netNextEventTs net)

/-- `NodeHandle::next_step`: try one runtime step; if no task was polled and
a next event timestamp exists, advance the shared network and then the time
driver to it; report whether anything happened. -/
def nodeNextStep (pending : ℕ → Bool) (node : NodeCore) (net : NetworkState) :
    Option (Bool × NodeCore × NetworkState) :=
  match runtimeNextStep pending node.runtime with
  | none => none
  | some (some _, r1) => some (true, { node with runtime := r1 }, net)
  | some (none, r1) =>
    let node1 := { node with runtime := r1 }
    match nextEventTimestamp node1 net with
    | some t =>
      let net1 := (netAdvanceToTime t net).1
      match tdAdvanceToTime t node1.timeDriver with
      | none => none
      | some (td1, _) => some (true, { node1 with timeDriver := td1 }, net1)
    | none => some (false, node1, net)

/- ## UDP socket (src/src/sim/net/udp.rs) -/

inductive IoErrKind where
  | addrInUse
  | addrNotAvailable
  | invalidInput
  deriving DecidableEq, Repr

/-- World a bind operates on: the binding node, the set of ports currently
held by that node's live sockets (the model of the `UdpSocket` values it
owns, used for port accounting), and the shared network. -/
structure BindState where
  node : NodeCore
  livePorts : Finset ℕ
  net : NetworkState
  deriving DecidableEq

/-- Candidate loop of `UdpSocket::bind`: skip multicast; rewrite unspecified
or loopback to the node's ip; port 0 means "any free port"; allocate via
`take_port`; on success attempt registration (`register_upd_socket` fails on
any existing entry).  On a registration conflict the loop moves to the next
candidate; note that the allocated port is not re-inserted into the free
set on that path. -/
def bindGo : List SockAddr → BindState → Except IoErrKind SockAddr × BindState
  | [], w => (Except.error IoErrKind.addrInUse, w)
  | a :: restCands, w =>
    if ipIsMulticast a.ip then bindGo restCands w
    else
      let a1 := if ipIsUnspecified a.ip ∨ ipIsLoopback a.ip then { a with ip := w.node.info.ip } else a
      let pOpt := if a1.port = 0 then none else some a1.port
      match takePort w.node pOpt with
      | (none, n1) => bindGo restCands { w with node := n1 }
      | (some p, n1) =>
        let a2 : SockAddr := ⟨a1.ip, p⟩
        match regLookup w.net.registry a2 with
        | none =>
          let sock : SockState :=
            ⟨{ capacity := w.node.info.udpRecvBufferSize, len := 0, buf := [] }, []⟩
          (Except.ok a2,
            { node := n1
              livePorts := insert p w.livePorts
              net := { w.net with registry := w.net.registry ++ [(a2, some sock)] } })
        | some _ => bindGo restCands { w with node := n1 }

def bindUdp (candidates : List SockAddr) (w : BindState) :
    Except IoErrKind SockAddr × BindState :=
  bindGo candidates w

/-- `Drop for UdpSocket`: return the port (asserting it was not free) and
deregister the socket (asserting the entry exists). -/
def dropSocket (w : BindState) (a : SockAddr) : Option BindState :=
  match returnPort w.node a.port with
  | none => none
  | some n1 =>
    match regLookup w.net.registry a with
    | none => none
    | some _ =>
      some { node := n1
             livePorts := w.livePorts.erase a.port
             net := { w.net with registry := w.net.registry.filter (fun p => ¬ p.1 = a) } }

/-- `UdpSocket::send_to`, after target resolution (`targets` is the resolved
address list; a resolution failure returns before this point).  Reject an
empty resolution, multicast and unspecified targets; rewrite loopback to the
node's ip; truncate to the node's send-buffer size; fire-and-forget the
truncated byte count. -/
def sendTo (u01 : ℕ → ℚ) (udur : ℕ → ℕ) (nowT : ℕ) (selfAddr : SockAddr)
    (nodeIp : ℕ) (sendBufSize : ℕ) (buf : List ℕ) (targets : List SockAddr)
    (st : NetworkState) : Option (Except IoErrKind ℕ × NetworkState) :=
  match targets with
  | [] => some (Except.error IoErrKind.addrNotAvailable, st)
  | t :: _ =>
    if ipIsMulticast t.ip ∨ ipIsUnspecified t.ip then
      some (Except.error IoErrKind.invalidInput, st)
    else
      let t1 := if ipIsLoopback t.ip then { t with ip := nodeIp } else t
      let buf1 := buf.take (min sendBufSize buf.length)
      (sendUpdPacket u01 udur nowT selfAddr t1 buf1 st).map
        (fun r => (Except.ok buf1.length, r.2))

/- ## Simulation driver (src/src/sim.rs)

`Sim::make_steps` snapshots the node keys out of a `HashMap` — whose
iteration order is arbitrary — sorts them, and then repeatedly sweeps the
nodes in that sorted order, each sweep running every node to quiescence,
until a full sweep makes no progress.  The per-node behaviour
(`NodeHandle::make_steps(None)`) is abstracted by `f`, returning the step
count and the updated world; `fuel` bounds the outer while-loop. -/

def sortIps (l : List ℕ) : List ℕ := l.mergeSort (fun a b => a ≤ b)

def simPass {W : Type} (f : ℕ → W → ℕ × W) : List ℕ → W → ℕ × W
  | [], w => (0, w)
  | ip :: rest, w =>
    let r := f ip w
    let r2 := simPass f rest r.2
    (r.1 + r2.1, r2.2)

def simLoop {W : Type} (f : ℕ → W → ℕ × W) (order : List ℕ) : ℕ → W → ℕ × W
  | 0, w => (0, w)
  | fuel + 1, w =>
    let r := simPass f order w
    if r.1 = 0 then r
    else
      let r2 := simLoop f order fuel r.2
      (r.1 + r2.1, r2.2)

def simMakeSteps {W : Type} (f : ℕ → W → ℕ × W) (keys : List ℕ) (fuel : ℕ) (w : W) :
    ℕ × W :=
  simLoop f (sortIps keys) fuel w

/- ## Sample worlds used by the concrete evaluations below -/

/-- A node with ip 10.12.1.2 (numerically 168558850), all ports free, and an
empty network registry: the starting world of a fresh two-node simulation
from this node's perspective. -/
def foreignBindWorld : BindState :=
  { node := { runtime := ⟨[], []⟩, timeDriver := ⟨[], 0⟩,
              info := ⟨168558850, 4096, 4096⟩, freePorts := initFreePorts }
    livePorts := ∅
    net := { registry := [], rngCursor := 0, minDelay := 100000000,
             maxDelay := 500000000, dropRate := 1 / 20, events := [],
             topology := ⟨{168558849, 168558850}, ∅⟩ } }

/-- A node with ip 10.12.1.1 (numerically 168558849), all ports free and no
live sockets, while the shared registry already holds a live socket entry at
`10.12.1.1:80` (bound by a foreign node via the unchecked foreign-ip path of
`bind`).  Port accounting on this node currently holds: 65535 + 0. -/
def conflictBindWorld : BindState :=
  { node := { runtime := ⟨[], []⟩, timeDriver := ⟨[], 0⟩,
              info := ⟨168558849, 4096, 4096⟩, freePorts := initFreePorts }
    livePorts := ∅
    net := { registry := [(⟨168558849, 80⟩, some ⟨⟨4096, 0, []⟩, []⟩)],
             rngCursor := 0, minDelay := 100000000, maxDelay := 500000000,
             dropRate := 1 / 20, events := [], topology := ⟨{168558849}, ∅⟩ } }

/-- An idle node (ip 1, empty runtime queue, no timers) whose network holds
one due delivery event addressed to the live socket `1:123`, which has a
zero-capacity receive buffer (udp_recv_buffer_size 0) and one recv-waiter. -/
def overflowNode : NodeCore :=
  { runtime := ⟨[], []⟩, timeDriver := ⟨[], 0⟩, info := ⟨1, 4096, 0⟩, freePorts := ∅ }

def overflowNet : NetworkState :=
  { registry := [(⟨1, 123⟩, some ⟨⟨0, 0, []⟩, [7]⟩)]
    rngCursor := 0, minDelay := 100000000, maxDelay := 500000000
    dropRate := 1 / 20
    events := [⟨0, ⟨2, 345⟩, ⟨1, 123⟩, [104]⟩]
    topology := ⟨{1, 2}, {(1, 2), (2, 1)}⟩ }

/- ## Heap-pop lemmas -/

theorem popMinBy_none {α : Type} (key : α → ℕ) (l : List α) :
    popMinBy key l = none ↔ l = [] := by
  cases l with
  | nil => simp [popMinBy]
  | cons x xs =>
    simp only [popMinBy]
    cases h : popMinBy key xs with
    | none => simp
    | some p =>
      obtain ⟨y, ys⟩ := p
      simp only
      split <;> simp

theorem popMinBy_perm {α : Type} (key : α → ℕ) :
    ∀ {l : List α} {y : α} {ys : List α},
      popMinBy key l = some (y, ys) → l.Perm (y :: ys)
  | [], y, ys => by simp [popMinBy]
  | x :: xs, y, ys => by
    intro h
    simp only [popMinBy] at h
    cases hx : popMinBy key xs with
    | none =>
      rw [hx] at h
      obtain rfl := (popMinBy_none key xs).mp hx
      simp only [Option.some.injEq, Prod.mk.injEq] at h
      obtain ⟨rfl, rfl⟩ := h
      exact List.Perm.refl _
    | some p =>
      obtain ⟨z, zs⟩ := p
      rw [hx] at h
      simp only at h
      split at h
      · simp only [Option.some.injEq, Prod.mk.injEq] at h
        obtain ⟨rfl, rfl⟩ := h
        exact List.Perm.refl _
      · simp only [Option.some.injEq, Prod.mk.injEq] at h
        obtain ⟨rfl, rfl⟩ := h
        exact ((popMinBy_perm key hx).cons x).trans (List.Perm.swap _ _ _)

theorem popMinBy_min {α : Type} (key : α → ℕ) :
    ∀ {l : List α} {y : α} {ys : List α},
      popMinBy key l = some (y, ys) → ∀ z ∈ l, key y ≤ key z
  | [], y, ys => by simp [popMinBy]
  | x :: xs, y, ys => by
    intro h z hz
    simp only [popMinBy] at h
    cases hx : popMinBy key xs with
    | none =>
      rw [hx] at h
      obtain rfl := (popMinBy_none key xs).mp hx
      simp only [Option.some.injEq, Prod.mk.injEq] at h
      obtain ⟨rfl, rfl⟩ := h
      simp only [List.mem_singleton] at hz
      exact hz ▸ le_refl _
    | some p =>
      obtain ⟨z0, zs⟩ := p
      rw [hx] at h
      simp only at h
      rcases List.mem_cons.mp hz with rfl | hz2
      · split at h <;> simp only [Option.some.injEq, Prod.mk.injEq] at h <;>
          obtain ⟨rfl, rfl⟩ := h
        · exact le_refl _
        · exact le_of_not_le (by assumption)
      · split at h <;> simp only [Option.some.injEq, Prod.mk.injEq] at h <;>
          obtain ⟨rfl, rfl⟩ := h
        · exact le_trans (by assumption) (popMinBy_min key hx z hz2)
        · exact popMinBy_min key hx z hz2

/- ## Drain-loop lemmas -/

theorem tdAdvanceGo_spec (tgt : ℕ) (fuel : ℕ) :
    ∀ (s : TimeState) (acc : List TimerEntry), s.heap.length ≤ fuel →
      (tdAdvanceGo tgt fuel s acc).1.heap.Perm
          (s.heap.filter (fun e => decide (tgt < e.timestamp))) ∧
      (tdAdvanceGo tgt fuel s acc).2.Perm
          (acc ++ s.heap.filter (fun e => decide (e.timestamp ≤ tgt))) := by
  induction fuel with
  | zero =>
    intro s acc hlen
    have hnil : s.heap = [] := List.length_eq_zero.mp (Nat.le_zero.mp hlen)
    simp [tdAdvanceGo, hnil]
  | succ fuel ih =>
    intro s acc hlen
    cases hp : popMinBy TimerEntry.timestamp s.heap with
    | none =>
      have hnil : s.heap = [] := (popMinBy_none _ _).mp hp
      simp [tdAdvanceGo, hp, hnil, popMinBy]
    | some p =>
      obtain ⟨e, rest⟩ := p
      have hperm := popMinBy_perm TimerEntry.timestamp hp
      have hmin := popMinBy_min TimerEntry.timestamp hp
      by_cases he : e.timestamp ≤ tgt
      · have hlen2 : rest.length ≤ fuel := by
          have hl := hperm.length_eq
          simp only [List.length_cons] at hl
          omega
        have ihr := ih ⟨rest, e.timestamp⟩ (acc ++ [e]) hlen2
        have hunf : tdAdvanceGo tgt (fuel + 1) s acc =
            tdAdvanceGo tgt fuel ⟨rest, e.timestamp⟩ (acc ++ [e]) := by
          simp [tdAdvanceGo, hp, he]
        rw [hunf]
        have hfleq : (s.heap.filter (fun e => decide (tgt < e.timestamp))).Perm
            (rest.filter (fun e => decide (tgt < e.timestamp))) := by
          have := hperm.filter (fun e => decide (tgt < e.timestamp))
          rwa [List.filter_cons_of_neg (by simp; omega)] at this
        have hfgeq : (s.heap.filter (fun e => decide (e.timestamp ≤ tgt))).Perm
            (e :: rest.filter (fun e => decide (e.timestamp ≤ tgt))) := by
          have := hperm.filter (fun e => decide (e.timestamp ≤ tgt))
          rwa [List.filter_cons_of_pos (by simpa using he)] at this
        refine ⟨ihr.1.trans hfleq.symm, ihr.2.trans ?_⟩
        rw [List.append_assoc, List.singleton_append]
        exact (hfgeq.symm.append_left acc)
      · have hunf : tdAdvanceGo tgt (fuel + 1) s acc = (s, acc) := by
          simp [tdAdvanceGo, hp, he]
        rw [hunf]
        have hall : ∀ z ∈ s.heap, tgt < z.timestamp := by
          intro z hz
          have := hmin z hz
          omega
        constructor
        · rw [List.filter_eq_self.mpr (by intro a ha; simpa using hall a ha)]
        · rw [List.filter_eq_nil_iff.mpr (by intro a ha; simpa using hall a ha)]
          simp

theorem netAdvanceGo_spec (tgt : ℕ) (fuel : ℕ) :
    ∀ (st : NetworkState) (acc : List (NetEvent × List ℕ)), st.events.length ≤ fuel →
      ∃ proc : List (NetEvent × List ℕ),
        (netAdvanceGo tgt fuel st acc).2 = acc ++ proc ∧
        (proc.map Prod.fst).Perm
          (st.events.filter (fun e => decide (e.timestamp ≤ tgt))) ∧
        (netAdvanceGo tgt fuel st acc).1.events.Perm
          (st.events.filter (fun e => decide (tgt < e.timestamp))) ∧
        (netAdvanceGo tgt fuel st acc).1.registry =
          foldDeliver st.registry (proc.map Prod.fst) ∧
        (netAdvanceGo tgt fuel st acc).1.rngCursor = st.rngCursor ∧
        (netAdvanceGo tgt fuel st acc).1.topology = st.topology := by
  induction fuel with
  | zero =>
    intro st acc hlen
    have hnil : st.events = [] := List.length_eq_zero.mp (Nat.le_zero.mp hlen)
    exact ⟨[], by simp [netAdvanceGo, hnil, foldDeliver]⟩
  | succ fuel ih =>
    intro st acc hlen
    cases hp : popMinBy NetEvent.timestamp st.events with
    | none =>
      have hnil : st.events = [] := (popMinBy_none _ _).mp hp
      exact ⟨[], by simp [netAdvanceGo, hp, hnil, foldDeliver, popMinBy]⟩
    | some p =>
      obtain ⟨e, rest⟩ := p
      have hperm := popMinBy_perm NetEvent.timestamp hp
      have hmin := popMinBy_min NetEvent.timestamp hp
      by_cases he : e.timestamp ≤ tgt
      · have hlen2 : rest.length ≤ fuel := by
          have hl := hperm.length_eq
          simp only [List.length_cons] at hl
          omega
        set st1 : NetworkState :=
          { st with events := rest, registry := (deliverOne st.registry e).1 } with hst1
        have hunf : netAdvanceGo tgt (fuel + 1) st acc =
            netAdvanceGo tgt fuel st1 (acc ++ [(e, (deliverOne st.registry e).2)]) := by
          simp [netAdvanceGo, hp, he, handleEvent, hst1]
        obtain ⟨proc2, hp1, hp2, hp3, hp4, hp5, hp6⟩ :=
          ih st1 (acc ++ [(e, (deliverOne st.registry e).2)]) (by simpa [hst1] using hlen2)
        rw [hunf]
        refine ⟨(e, (deliverOne st.registry e).2) :: proc2, ?_, ?_, ?_, ?_, ?_, ?_⟩
        · rw [hp1, List.append_assoc, List.singleton_append]
        · have hfgeq : (st.events.filter (fun e => decide (e.timestamp ≤ tgt))).Perm
              (e :: rest.filter (fun e => decide (e.timestamp ≤ tgt))) := by
            have := hperm.filter (fun e => decide (e.timestamp ≤ tgt))
            rwa [List.filter_cons_of_pos (by simpa using he)] at this
          simp only [List.map_cons]
          exact (hp2.cons e).trans hfgeq.symm
        · have hfleq : (st.events.filter (fun e => decide (tgt < e.timestamp))).Perm
              (rest.filter (fun e => decide (tgt < e.timestamp))) := by
            have := hperm.filter (fun e => decide (tgt < e.timestamp))
            rwa [List.filter_cons_of_neg (by simp; omega)] at this
          exact (hp3.trans (by simp [hst1])).trans hfleq.symm
        · rw [hp4]
          simp [hst1, foldDeliver]
        · rw [hp5]
        · rw [hp6]
      · have hunf : netAdvanceGo tgt (fuel + 1) st acc = (st, acc) := by
          simp [netAdvanceGo, hp, he]
        rw [hunf]
        have hall : ∀ z ∈ st.events, tgt < z.timestamp := by
          intro z hz
          have := hmin z hz
          omega
        refine ⟨[], by simp, ?_, ?_, by simp [foldDeliver], rfl, rfl⟩
        · rw [List.filter_eq_nil_iff.mpr (by intro a ha; simpa using hall a ha)]
          simp
        · rw [List.filter_eq_self.mpr (by intro a ha; simpa using hall a ha)]

/- ## Topology lemmas -/

theorem separateGo_spec (g : List ℕ) :
    ∀ (l : List ℕ) (t : Topology), (∀ s ∈ l, s ∈ t.nodes) →
      ∃ t', separateGo g l t = some t' ∧ t'.nodes = t.nodes ∧
        ∀ p : ℕ × ℕ, p ∈ t'.links ↔
          p ∈ t.links ∧
          ¬ ((p.1 ∈ l ∧ p.2 ∈ t.nodes ∧ p.2 ∉ g) ∨ (p.2 ∈ l ∧ p.1 ∈ t.nodes ∧ p.1 ∉ g))
  | [], t => fun _ => ⟨t, rfl, rfl, by simp⟩
  | s :: rest, t => by
    intro h
    have hs : s ∈ t.nodes := h s (by simp)
    obtain ⟨t', h1, h2, h3⟩ :=
      separateGo_spec g rest (sepOne g t s) (fun x hx => h x (by simp [hx]))
    refine ⟨t', by simp [separateGo, hs, h1], h2, ?_⟩
    intro p
    rw [h3 p]
    show p ∈ (sepOne g t s).links ∧
        ¬ ((p.1 ∈ rest ∧ p.2 ∈ (sepOne g t s).nodes ∧ p.2 ∉ g) ∨
           (p.2 ∈ rest ∧ p.1 ∈ (sepOne g t s).nodes ∧ p.1 ∉ g)) ↔ _
    simp only [sepOne, Finset.mem_filter, List.mem_cons]
    tauto

/- ## send_upd_packet totality given a registered sender -/

theorem sendUpdPacket_some (u01 : ℕ → ℚ) (udur : ℕ → ℕ) (nowT : ℕ)
    (src dst : SockAddr) (pkt : List ℕ) (st : NetworkState)
    (e : Option SockState) (ha : regLookup st.registry src = some e) :
    ∃ r, sendUpdPacket u01 udur nowT src dst pkt st = some r := by
  unfold sendUpdPacket
  rw [ha]
  cases e with
  | none => exact ⟨_, rfl⟩
  | some sa =>
    cases hb : regLookup st.registry dst with
    | none => exact ⟨_, rfl⟩
    | some eb =>
      cases eb with
      | none => exact ⟨_, rfl⟩
      | some sb =>
        by_cases hd : dst = src
        · simp [hd]
        · simp only [if_neg hd]
          by_cases hx : u01 st.rngCursor < st.dropRate
          · simp [hx]
          · simp [hx]

/- ## Sorting normalizes the arbitrary key-snapshot order -/

theorem sortIps_sorted (l : List ℕ) : List.Sorted (fun a b : ℕ => a ≤ b) (sortIps l) := by
  have hs := @List.sorted_mergeSort ℕ (fun a b => decide (a ≤ b))
    (fun a b c hab hbc => by simp only [decide_eq_true_eq] at *; omega)
    (fun a b => by simp [Nat.le_total]) l
  exact hs.imp (fun hab => by simpa using hab)

theorem sortIps_eq_of_perm {l₁ l₂ : List ℕ} (h : l₁.Perm l₂) : sortIps l₁ = sortIps l₂ := by
  apply List.eq_of_perm_of_sorted (r := fun a b : ℕ => a ≤ b)
  · exact (List.mergeSort_perm l₁ _).trans (h.trans (List.mergeSort_perm l₂ _).symm)
  · exact sortIps_sorted l₁
  · exact sortIps_sorted l₂

/- ## take_task lemmas -/

theorem takeTaskGo_none_char :
    ∀ (q m : List ℕ), takeTaskGo q m = none → ∀ id ∈ q, id ∉ m
  | [], _ => by simp
  | a :: q, m => by
    intro h id hid
    simp only [takeTaskGo] at h
    split at h
    · exact absurd h (by simp)
    · rcases List.mem_cons.mp hid with rfl | hid2
      · assumption
      · exact takeTaskGo_none_char q m h id hid2

theorem takeTaskGo_some_char :
    ∀ (q m : List ℕ) {id : ℕ} {q2 m2 : List ℕ}, takeTaskGo q m = some (id, q2, m2) →
      id ∈ m ∧ m2 = m.erase id ∧ ∃ q1, q = q1 ++ id :: q2 ∧ ∀ x ∈ q1, x ∉ m
  | [], _, _, _, _ => by simp [takeTaskGo]
  | a :: q, m, id, q2, m2 => by
    intro h
    simp only [takeTaskGo] at h
    split at h
    · simp only [Option.some.injEq, Prod.mk.injEq] at h
      obtain ⟨rfl, rfl, rfl⟩ := h
      exact ⟨by assumption, rfl, [], rfl, by simp⟩
    · obtain ⟨h1, h2, q1, h3, h4⟩ := takeTaskGo_some_char q m h
      refine ⟨h1, h2, a :: q1, by simp [h3], ?_⟩
      intro x hx
      rcases List.mem_cons.mp hx with rfl | hx2
      · assumption
      · exact h4 x hx2

/- ## Claim C1 -/

/-- Claim C1 counterexample.  In the runtime state with work queue `[1, 1]`
(task 1 woken twice before polling) and task 1 pending in the map, a
`next_step` polls task 1 and returns the very same state: the pending task
is re-inserted into the map and its id re-pushed, so the leftover duplicate
occurrence is dequeued by the following `next_step` — whose state is this
same state, hence it polls task 1 again — with no wake happening in
between.  Later duplicate occurrences of a still-pending task are therefore
not discarded by the presence check. -/
theorem C1_counterexample :
    runtimeNextStep (fun _ => true) ⟨[1, 1], [1]⟩ = some (some 1, ⟨[1, 1], [1]⟩) := by
  decide

/-- Claim C1 (amended): `take_task` discards exactly the dequeued ids that
are absent from the task map (resolved or cancelled tasks); the polled task
is the first id in FIFO order that is present, and it is removed from the
map.  A task that polls pending is re-inserted into the map and its id
re-pushed, so later duplicate occurrences of a still-pending task are not
discarded and lead to further polls; consecutive polls of the same task can
happen without an intervening wake. -/
theorem C1_take_task_discipline (q m : List ℕ) :
    (takeTaskGo q m = none → ∀ id ∈ q, id ∉ m) ∧
    (∀ id q2 m2, takeTaskGo q m = some (id, q2, m2) →
      id ∈ m ∧ m2 = m.erase id ∧ ∃ q1, q = q1 ++ id :: q2 ∧ ∀ x ∈ q1, x ∉ m) ∧
    (∀ pending id q2 m2, m.Nodup → takeTaskGo q m = some (id, q2, m2) →
      pending id = true →
      runtimeNextStep pending ⟨q, m⟩ = some (some id, ⟨q2 ++ [id], id :: m2⟩)) := by
  refine ⟨takeTaskGo_none_char q m, fun id q2 m2 h => takeTaskGo_some_char q m h, ?_⟩
  intro pending id q2 m2 hnd ht hp
  have hm2 : m2 = m.erase id := (takeTaskGo_some_char q m ht).2.1
  have hnot : id ∉ m2 := by
    rw [hm2]
    intro hmem
    exact absurd (hnd.mem_erase_iff.mp hmem).1 (by simp)
  simp [runtimeNextStep, ht, hp, addTask, hnot, pushTask]

/-- Claim C1 witness: the take-task discipline evaluated on the queue
`[9, 1]` with task map `[1]` — the stale id 9 is discarded and task 1 is
taken. -/
theorem C1_witness :
    takeTaskGo [9, 1] [1] = some (1, [], []) ∧
    (1 ∈ [1] ∧ ([] : List ℕ) = [1].erase 1 ∧
      ∃ q1, [9, 1] = q1 ++ 1 :: [] ∧ ∀ x ∈ q1, x ∉ [1]) :=
  ⟨by decide, (C1_take_task_discipline [9, 1] [1]).2.1 1 [] [] (by decide)⟩

/- ## Claim C5 -/

/-- Claim C5: for a clock at `s.time ≤ tgt`, `advance_to_time tgt` fires
exactly the timer entries with timestamp `≤ tgt` (pop, set clock, wake),
keeps exactly the entries with timestamp `> tgt` in the heap, and leaves
`time` equal to `tgt`; when the clock is already past `tgt` the call
panics. -/
theorem C5_advance_to_time (s : TimeState) (tgt : ℕ) :
    (s.time ≤ tgt →
      ∃ s2 fired, tdAdvanceToTime tgt s = some (s2, fired) ∧
        s2.time = tgt ∧
        s2.heap.Perm (s.heap.filter (fun e => decide (tgt < e.timestamp))) ∧
        fired.Perm (s.heap.filter (fun e => decide (e.timestamp ≤ tgt)))) ∧
    (tgt < s.time → tdAdvanceToTime tgt s = none) := by
  constructor
  · intro hle
    obtain ⟨h1, h2⟩ := tdAdvanceGo_spec tgt s.heap.length s [] (le_refl _)
    refine ⟨⟨(tdAdvanceGo tgt s.heap.length s []).1.heap, tgt⟩,
           (tdAdvanceGo tgt s.heap.length s []).2, ?_, rfl, h1, by simpa using h2⟩
    simp [tdAdvanceToTime, hle]
  · intro hgt
    simp only [tdAdvanceToTime, if_neg (by omega : ¬ s.time ≤ tgt)]

def c5sample : TimeState := ⟨[⟨1, 5⟩, ⟨2, 10⟩, ⟨3, 7⟩], 0⟩

/-- Claim C5 witness: the advance-to-time characterization evaluated at a
three-timer heap and target 7. -/
theorem C5_witness :
    c5sample.time ≤ 7 ∧
    (∃ s2 fired, tdAdvanceToTime 7 c5sample = some (s2, fired) ∧
      s2.time = 7 ∧
      s2.heap.Perm (c5sample.heap.filter (fun e => decide (7 < e.timestamp))) ∧
      fired.Perm (c5sample.heap.filter (fun e => decide (e.timestamp ≤ 7)))) :=
  ⟨by decide, (C5_advance_to_time c5sample 7).1 (by decide)⟩

/- ## Claim C6 -/

/-- Claim C6: on a topology whose nodes are fully meshed and with every
member of `g` registered, `separate g` succeeds, and afterwards for all
registered `a`, `b`: `hops a b` is `none` iff exactly one of `a`, `b` lies
in `g`; moreover `hops a a = 0`, and distinct pairs on the same side of the
partition keep `hops = 1`. -/
theorem C6_separate_hops (t : Topology) (g : List ℕ)
    (hreg : ∀ s ∈ g, s ∈ t.nodes)
    (hmesh : ∀ a b, a ∈ t.nodes → b ∈ t.nodes → (a, b) ∈ t.links) :
    ∃ t', separate t g = some t' ∧
      ∀ a b, a ∈ t.nodes → b ∈ t.nodes →
        ((hops t' a b = none ↔ ¬ ((a ∈ g) ↔ (b ∈ g))) ∧
         (a = b → hops t' a b = some 0) ∧
         (a ≠ b → ((a ∈ g) ↔ (b ∈ g)) → hops t' a b = some 1)) := by
  obtain ⟨t', h1, h2, h3⟩ := separateGo_spec g g t hreg
  refine ⟨t', h1, ?_⟩
  intro a b ha hb
  have ha2 : a ∈ t'.nodes := h2 ▸ ha
  have hb2 : b ∈ t'.nodes := h2 ▸ hb
  by_cases hab : a = b
  · subst hab
    have h0 : hops t' a a = some 0 := by simp [hops, ha2]
    refine ⟨?_, fun _ => h0, fun hne _ => absurd rfl hne⟩
    rw [h0]
    simp
  · have hlink : ((a, b) ∈ t'.links) ↔ ((a ∈ g) ↔ (b ∈ g)) := by
      rw [h3 (a, b)]
      have hm := hmesh a b ha hb
      simp only
      tauto
    have hx : hops t' a b = if (a, b) ∈ t'.links then some 1 else none := by
      simp [hops, ha2, hb2, hab]
    refine ⟨?_, fun he => absurd he hab, fun _ hgg => by rw [hx, if_pos (hlink.mpr hgg)]⟩
    rw [hx]
    by_cases hg : (a ∈ g) ↔ (b ∈ g)
    · rw [if_pos (hlink.mpr hg)]
      simp [hg]
    · rw [if_neg (fun hmem => hg (hlink.mp hmem))]
      simp [hg]

def c6top : Topology :=
  ⟨{1, 2, 3}, {(1, 1), (1, 2), (1, 3), (2, 1), (2, 2), (2, 3), (3, 1), (3, 2), (3, 3)}⟩

/-- Claim C6 witness: the separate/hops characterization on the full mesh
over nodes 1, 2, 3 with group `[1]`. -/
theorem C6_witness :
    (∀ s ∈ [1], s ∈ c6top.nodes) ∧
    (∀ a ∈ c6top.nodes, ∀ b ∈ c6top.nodes, (a, b) ∈ c6top.links) ∧
    (∃ t', separate c6top [1] = some t' ∧
      ∀ a b, a ∈ c6top.nodes → b ∈ c6top.nodes →
        ((hops t' a b = none ↔ ¬ ((a ∈ [1]) ↔ (b ∈ [1]))) ∧
         (a = b → hops t' a b = some 0) ∧
         (a ≠ b → ((a ∈ [1]) ↔ (b ∈ [1])) → hops t' a b = some 1))) :=
  ⟨by decide, by decide,
   C6_separate_hops c6top [1] (by decide)
     (fun a b ha hb =>
       (by decide : ∀ a ∈ c6top.nodes, ∀ b ∈ c6top.nodes, (a, b) ∈ c6top.links) a ha b hb)⟩

/- ## Claim C8 -/

/-- Claim C8: the simulation driver's outcome is a pure function of the
seed-derived world and ordered inputs — two runs over the same node set,
same per-node behaviour, same fuel and same initial world produce identical
results even though the `HashMap` key snapshot may enumerate the node ips
in different orders, because `Sim::make_steps` sorts the snapshot before
sweeping.  Identical seed, node-add order, spawn order and partition calls
are represented by the equal `f`, `w` and key multiset on both sides. -/
theorem C8_determinism {W : Type} (f : ℕ → W → ℕ × W) (fuel : ℕ) (w : W)
    {k1 k2 : List ℕ} (h : k1.Perm k2) :
    simMakeSteps f k1 fuel w = simMakeSteps f k2 fuel w := by
  unfold simMakeSteps
  rw [sortIps_eq_of_perm h]

/-- Claim C8 witness: two runs whose key snapshots enumerate `{1, 2}` in
opposite orders produce the same result. -/
theorem C8_witness :
    ([2, 1] : List ℕ).Perm [1, 2] ∧
    simMakeSteps (fun ip w => (ip, w + ip)) [2, 1] 3 0 =
      simMakeSteps (fun ip w => (ip, w + ip)) [1, 2] 3 0 :=
  ⟨by decide, C8_determinism (fun ip w => (ip, w + ip)) 3 0 (by decide)⟩

/- ## Claim C10 -/

/-- Claim C10: `send_upd_packet` with a `from` address whose registry entry
is a dead weak reference returns `dropped = true` with the network state —
in particular the event heap — completely untouched; the call panics
exactly when the `from` address has no registry entry at all. -/
theorem C10_dead_sender (u01 : ℕ → ℚ) (udur : ℕ → ℕ) (nowT : ℕ)
    (a b : SockAddr) (pkt : List ℕ) (st : NetworkState) :
    (regLookup st.registry a = some none →
      sendUpdPacket u01 udur nowT a b pkt st = some (true, st)) ∧
    (regLookup st.registry a = none →
      sendUpdPacket u01 udur nowT a b pkt st = none) ∧
    (sendUpdPacket u01 udur nowT a b pkt st = none →
      regLookup st.registry a = none) := by
  refine ⟨?_, ?_, ?_⟩
  · intro h
    simp [sendUpdPacket, h]
  · intro h
    simp [sendUpdPacket, h]
  · intro h
    cases he : regLookup st.registry a with
    | none => rfl
    | some e =>
      obtain ⟨r, hr⟩ := sendUpdPacket_some u01 udur nowT a b pkt st e he
      rw [hr] at h
      exact absurd h (by simp)

def st10 : NetworkState :=
  { registry := [(⟨1, 1⟩, none)], rngCursor := 0, minDelay := 100000000,
    maxDelay := 500000000, dropRate := 1 / 20, events := [],
    topology := ⟨{1, 2}, {(1, 2), (2, 1)}⟩ }

/-- Claim C10 witness: a send from the dead-entry address `1:1` returns
dropped and leaves the state unchanged. -/
theorem C10_witness :
    regLookup st10.registry ⟨1, 1⟩ = some none ∧
    sendUpdPacket (fun _ => 0) (fun _ => 0) 0 ⟨1, 1⟩ ⟨2, 2⟩ [] st10 = some (true, st10) :=
  ⟨by decide,
   (C10_dead_sender (fun _ => 0) (fun _ => 0) 0 ⟨1, 1⟩ ⟨2, 2⟩ [] st10).1 (by decide)⟩

/- ## Claim C4 -/

/-- Claim C4: with both endpoint sockets registered and alive, the
drop-rate sample is drawn only when the two socket addresses differ — a
loopback send (`dst = src`) consumes a single PRNG draw (the delay) and, as
its hop count is 0, schedules the delivery at exactly `now`; a
distinct-address send first consumes the drop draw, returns dropped when it
falls below the drop rate, and otherwise consumes the delay draw `d` and
schedules the delivery at `now + d * hops`, `d` lying in
`[min_delay, max_delay)` scaled by the hop count whenever the sampler
respects its range. -/
theorem C4_send_delay (u01 : ℕ → ℚ) (udur : ℕ → ℕ) (nowT : ℕ) (a b : SockAddr)
    (pkt : List ℕ) (st : NetworkState) (sa sb : SockState)
    (ha : regLookup st.registry a = some (some sa))
    (hb : regLookup st.registry b = some (some sb)) :
    (b = a → a.ip ∈ st.topology.nodes →
      sendUpdPacket u01 udur nowT a b pkt st =
        some (false, { st with
          rngCursor := st.rngCursor + 1
          events := st.events ++ [⟨nowT, a, a, pkt⟩] })) ∧
    (b ≠ a → u01 st.rngCursor < st.dropRate →
      sendUpdPacket u01 udur nowT a b pkt st =
        some (true, { st with rngCursor := st.rngCursor + 1 })) ∧
    (∀ h, b ≠ a → ¬ u01 st.rngCursor < st.dropRate →
      hops st.topology a.ip b.ip = some h →
      sendUpdPacket u01 udur nowT a b pkt st =
        some (false, { st with
          rngCursor := st.rngCursor + 2
          events := st.events ++
            [⟨nowT + udur (st.rngCursor + 1) * h, a, b, pkt⟩] }) ∧
      ((∀ i, st.minDelay ≤ udur i ∧ udur i < st.maxDelay) → 0 < h →
        st.minDelay * h ≤ udur (st.rngCursor + 1) * h ∧
        udur (st.rngCursor + 1) * h < st.maxDelay * h)) := by
  refine ⟨?_, ?_, ?_⟩
  · intro hba hreg
    subst hba
    have hh : hops st.topology b.ip b.ip = some 0 := by
      simp [hops, hreg]
    simp [sendUpdPacket, ha, sendSchedule, hh]
  · intro hne hx
    simp [sendUpdPacket, ha, hb, hne, hx]
  · intro h hne hx hh
    constructor
    · have hh1 : hops ({ st with rngCursor := st.rngCursor + 1 } : NetworkState).topology
          a.ip b.ip = some h := hh
      simp [sendUpdPacket, ha, hb, hne, hx, sendSchedule, hh1]
    · intro hud hpos
      have h1 := (hud (st.rngCursor + 1)).1
      have h2 := (hud (st.rngCursor + 1)).2
      constructor
      · exact Nat.mul_le_mul_right h h1
      · exact (Nat.mul_lt_mul_right hpos).mpr h2

def st4 : NetworkState :=
  { registry := [(⟨9, 1⟩, some ⟨⟨10, 0, []⟩, []⟩)], rngCursor := 0,
    minDelay := 100000000, maxDelay := 500000000, dropRate := 1 / 20,
    events := [], topology := ⟨{9}, ∅⟩ }

/-- Claim C4 witness: a loopback send on the registered socket `9:1` is
scheduled at the current time 5 with a single PRNG draw consumed. -/
theorem C4_witness :
    regLookup st4.registry ⟨9, 1⟩ = some (some ⟨⟨10, 0, []⟩, []⟩) ∧
    (9 : ℕ) ∈ st4.topology.nodes ∧
    sendUpdPacket (fun _ => 1 / 2) (fun _ => 3) 5 ⟨9, 1⟩ ⟨9, 1⟩ [1, 2] st4 =
      some (false, { st4 with
        rngCursor := st4.rngCursor + 1
        events := st4.events ++ [⟨5, ⟨9, 1⟩, ⟨9, 1⟩, [1, 2]⟩] }) :=
  ⟨by decide, by decide,
   (C4_send_delay (fun _ => 1 / 2) (fun _ => 3) 5 ⟨9, 1⟩ ⟨9, 1⟩ [1, 2] st4
     ⟨⟨10, 0, []⟩, []⟩ ⟨⟨10, 0, []⟩, []⟩ (by decide) (by decide)).1 rfl (by decide)⟩

/- ## Claim C7 -/

/-- Claim C7: `send_to` on a bound socket fails with `AddrNotAvailable`
when resolution yields no addresses; otherwise, with a first resolved
address that is neither multicast nor unspecified and the sender's address
registered, it returns `Ok` of exactly
`min (udp_send_buffer_size, buf.len())` — the same value whether or not the
network drops the packet (the drop result is discarded). -/
theorem C7_send_to (u01 : ℕ → ℚ) (udur : ℕ → ℕ) (nowT : ℕ) (selfAddr : SockAddr)
    (nodeIp sendBufSize : ℕ) (buf : List ℕ) (targets : List SockAddr)
    (st : NetworkState) :
    (targets = [] →
      sendTo u01 udur nowT selfAddr nodeIp sendBufSize buf targets st =
        some (Except.error IoErrKind.addrNotAvailable, st)) ∧
    (∀ t rest, targets = t :: rest → ¬ ipIsMulticast t.ip → ¬ ipIsUnspecified t.ip →
      (∃ e, regLookup st.registry selfAddr = some e) →
      ∃ st2, sendTo u01 udur nowT selfAddr nodeIp sendBufSize buf targets st =
        some (Except.ok (min sendBufSize buf.length), st2)) := by
  constructor
  · intro h
    subst h
    rfl
  · rintro t rest h hmc hun ⟨e, he⟩
    subst h
    obtain ⟨⟨dropped, st2⟩, hr⟩ := sendUpdPacket_some u01 udur nowT selfAddr
      (if ipIsLoopback t.ip then { t with ip := nodeIp } else t)
      (buf.take (min sendBufSize buf.length)) st e he
    refine ⟨st2, ?_⟩
    have hlen : (buf.take (min sendBufSize buf.length)).length =
        min sendBufSize buf.length := by
      simp [List.length_take, Nat.min_assoc]
    simp only [sendTo, if_neg (by tauto : ¬ (ipIsMulticast t.ip ∨ ipIsUnspecified t.ip))]
    rw [hr]
    simp [hlen]

def st7 : NetworkState :=
  { registry := [(⟨1, 1⟩, some ⟨⟨10, 0, []⟩, []⟩)], rngCursor := 0,
    minDelay := 100000000, maxDelay := 500000000, dropRate := 1 / 20,
    events := [], topology := ⟨{1}, ∅⟩ }

/-- Claim C7 witness: a send of 3 bytes with send-buffer size 2 towards the
resolved target `9:7` returns `Ok 2`. -/
theorem C7_witness :
    ¬ ipIsMulticast (9 : ℕ) ∧ ¬ ipIsUnspecified (9 : ℕ) ∧
    (∃ st2, sendTo (fun _ => 1 / 2) (fun _ => 3) 0 ⟨1, 1⟩ 1 2 [5, 6, 7]
        [⟨9, 7⟩] st7 = some (Except.ok (min 2 [5, 6, 7].length), st2)) :=
  ⟨by decide, by decide,
   (C7_send_to (fun _ => 1 / 2) (fun _ => 3) 0 ⟨1, 1⟩ 1 2 [5, 6, 7] [⟨9, 7⟩] st7).2
     ⟨9, 7⟩ [] rfl (by decide) (by decide) ⟨some ⟨⟨10, 0, []⟩, []⟩, by decide⟩⟩

/- ## Claim C2 -/

/-- Claim C2, evaluated at the failing input.  On `conflictBindWorld` the
port accounting `|free_ports| + live sockets = 65535` holds before the
bind.  `bind` with candidate `0.0.0.0:80` (rewritten to the node's ip)
allocates port 80, then hits a registration conflict — the shared registry
already holds a live entry at `10.12.1.1:80` — and moves on without
re-inserting port 80 into the free set, ending with `AddrInUse` and the
accounting broken at 65534: the allocated port is NOT returned on the
conflict path, contrary to the claim and to spec section 4.7 step 4. -/
theorem C2_port_leak :
    bindUdp [⟨0, 80⟩] conflictBindWorld =
      (Except.error IoErrKind.addrInUse,
        { conflictBindWorld with node :=
            { conflictBindWorld.node with freePorts := initFreePorts.erase 80 } }) ∧
    conflictBindWorld.node.freePorts.card + conflictBindWorld.livePorts.card = 65535 ∧
    (initFreePorts.erase 80).card + conflictBindWorld.livePorts.card = 65534 := by
  have h80 : (80 : ℕ) ∈ initFreePorts := by
    simp [initFreePorts, Finset.mem_Icc]
  refine ⟨?_, ?_, ?_⟩
  · simp [bindUdp, bindGo, conflictBindWorld, takePort, regLookup, h80,
      ipIsMulticast, ipIsUnspecified, ipIsLoopback, octet0]
  · have hfp : conflictBindWorld.node.freePorts = initFreePorts := rfl
    have hlp : conflictBindWorld.livePorts = (∅ : Finset ℕ) := rfl
    rw [hfp, hlp, Finset.card_empty, initFreePorts, Nat.card_Icc]
  · have hlp : conflictBindWorld.livePorts = (∅ : Finset ℕ) := rfl
    rw [hlp, Finset.card_empty, Finset.card_erase_of_mem h80, initFreePorts,
      Nat.card_Icc]

/- ## Claim C3 -/

/-- Claim C3, evaluated at the failing input.  On `foreignBindWorld` — a
node with ip `10.12.1.2`, empty registry — `bind` with the candidate
`10.12.1.1:80`, whose ip is a different registered node's address (not
loopback, unspecified or multicast), SUCCEEDS: no check compares the
candidate ip with the node's ip, port 80 is taken from the binding node's
pool, and a live socket is registered at the foreign address `10.12.1.1:80`
— contrary to the claim, to spec section 8 and to the intent of the
repository's own `bind_on_other_ip` test. -/
theorem C3_foreign_bind :
    bindUdp [⟨168558849, 80⟩] foreignBindWorld =
      (Except.ok ⟨168558849, 80⟩,
        { node := { foreignBindWorld.node with freePorts := initFreePorts.erase 80 }
          livePorts := insert 80 foreignBindWorld.livePorts
          net := { foreignBindWorld.net with
            registry := foreignBindWorld.net.registry ++
              [(⟨168558849, 80⟩, some ⟨⟨4096, 0, []⟩, []⟩)] } }) ∧
    regLookup (foreignBindWorld.net.registry ++
        [(⟨168558849, 80⟩, some ⟨⟨4096, 0, []⟩, []⟩)]) ⟨168558849, 80⟩ =
      some (some ⟨⟨4096, 0, []⟩, []⟩) ∧
    (168558849 : ℕ) ≠ foreignBindWorld.node.info.ip ∧
    ¬ ipIsLoopback 168558849 ∧ ¬ ipIsUnspecified 168558849 ∧
    ¬ ipIsMulticast 168558849 := by
  have h80 : (80 : ℕ) ∈ initFreePorts := by
    simp [initFreePorts, Finset.mem_Icc]
  refine ⟨?_, ?_, by decide, by decide, by decide, by decide⟩
  · simp [bindUdp, bindGo, foreignBindWorld, takePort, regLookup, h80,
      ipIsMulticast, ipIsUnspecified, ipIsLoopback, octet0]
  · have hreg : foreignBindWorld.net.registry = [] := rfl
    rw [hreg]
    simp [regLookup]

/- ## Claim C9 -/

/-- Claim C9 counterexample.  The idle node `overflowNode` advances to the
next event timestamp 0; the shared network pops the due event addressed to
the live socket `1:123`, but because that socket's receive buffer has
capacity 0 the one-byte datagram does NOT end up in the buffer (overflow
drop) even though the receiver is alive — the waiters are still woken (the
waiter list is drained).  The claim's unconditional "enqueues the datagram
into the receiver's buffer (if the receiver is still alive)" is therefore
false as stated. -/
theorem C9_counterexample :
    nodeNextStep (fun _ => false) overflowNode overflowNet =
      some (true,
        ⟨⟨[], []⟩, ⟨[], 0⟩, ⟨1, 4096, 0⟩, ∅⟩,
        { registry := [(⟨1, 123⟩, some ⟨⟨0, 0, []⟩, []⟩)]
          rngCursor := 0
          minDelay := 100000000
          maxDelay := 500000000
          dropRate := 1 / 20
          events := []
          topology := ⟨{1, 2}, {(1, 2), (2, 1)}⟩ }) := by
  rfl

/-- Claim C9 (amended): when `next_step` polls no task and a next event
timestamp `t` exists, the node advances the shared network and then its
time driver to `t`; the network pops exactly the events with timestamp
`≤ t` (receivers on any node — the registry is global), leaving the later
ones, and handles each in pop order: a live receiver has the datagram
appended to its buffer if and only if it fits within the remaining
capacity (it is silently dropped otherwise) and has all its recv-waiters
drained and woken; an absent or dead receiver leaves the network
untouched. -/
theorem C9_delivery (pending : ℕ → Bool) (node : NodeCore) (net : NetworkState)
    (r1 : RState) (t : ℕ)
    (hrt : runtimeNextStep pending node.runtime = some (none, r1))
    (ht : nextEventTimestamp { node with runtime := r1 } net = some t)
    (htd : node.timeDriver.time ≤ t) :
    (∃ td1 fired, tdAdvanceToTime t node.timeDriver = some (td1, fired) ∧
      nodeNextStep pending node net =
        some (true, { node with runtime := r1, timeDriver := td1 },
          (netAdvanceToTime t net).1)) ∧
    ((netAdvanceToTime t net).2.map Prod.fst).Perm
      (net.events.filter (fun e => decide (e.timestamp ≤ t))) ∧
    (netAdvanceToTime t net).1.events.Perm
      (net.events.filter (fun e => decide (t < e.timestamp))) ∧
    (netAdvanceToTime t net).1.registry =
      foldDeliver net.registry ((netAdvanceToTime t net).2.map Prod.fst) ∧
    (∀ reg ev sock, regLookup reg ev.receiver = some (some sock) →
      (deliverOne reg ev).2 = sock.recvWaiters ∧
      (deliverOne reg ev).1 =
        regUpdate reg ev.receiver
          (some ⟨(addDatagram sock.recvBuf ⟨ev.sender, ev.receiver, ev.data⟩).2, []⟩)) ∧
    (∀ b d, (d.data.length + b.len ≤ b.capacity →
        (addDatagram b d).2.buf = b.buf ++ [d]) ∧
      (¬ d.data.length + b.len ≤ b.capacity → (addDatagram b d).2 = b)) ∧
    (∀ reg ev, regLookup reg ev.receiver = none → deliverOne reg ev = (reg, [])) ∧
    (∀ reg ev, regLookup reg ev.receiver = some none → deliverOne reg ev = (reg, [])) := by
  have hdef : netAdvanceToTime t net = netAdvanceGo t net.events.length net [] := rfl
  obtain ⟨proc, hq1, hq2, hq3, hq4, _, _⟩ :=
    netAdvanceGo_spec t net.events.length net [] (le_refl _)
  refine ⟨?_, ?_, ?_, ?_, ?_, ?_, ?_, ?_⟩
  · have htda : tdAdvanceToTime t node.timeDriver =
        some (⟨(tdAdvanceGo t node.timeDriver.heap.length node.timeDriver []).1.heap, t⟩,
          (tdAdvanceGo t node.timeDriver.heap.length node.timeDriver []).2) := by
      simp [tdAdvanceToTime, htd]
    refine ⟨_, _, htda, ?_⟩
    simp [nodeNextStep, hrt, ht, htda]
  · rw [hdef, hq1]
    simpa using hq2
  · rw [hdef]
    exact hq3
  · rw [hdef, hq4, hq1]
    simp
  · intro reg ev sock h
    constructor <;> simp [deliverOne, h]
  · intro b d
    constructor <;> intro h <;> simp [addDatagram, h]
  · intro reg ev h
    simp [deliverOne, h]
  · intro reg ev h
    simp [deliverOne, h]

def c9wNode : NodeCore :=
  { runtime := ⟨[], []⟩, timeDriver := ⟨[], 0⟩, info := ⟨3, 4096, 100⟩, freePorts := ∅ }

def c9wNet : NetworkState :=
  { registry := [(⟨3, 50⟩, some ⟨⟨100, 0, []⟩, [11]⟩)], rngCursor := 0,
    minDelay := 100000000, maxDelay := 500000000, dropRate := 1 / 20,
    events := [⟨0, ⟨4, 60⟩, ⟨3, 50⟩, [1, 2]⟩],
    topology := ⟨{3, 4}, {(3, 4), (4, 3)}⟩ }

/-- Claim C9 witness: the delivery characterization evaluated on an idle
node and a network holding one due event for the live socket `3:50`. -/
theorem C9_witness :
    runtimeNextStep (fun _ => false) c9wNode.runtime = some (none, ⟨[], []⟩) ∧
    nextEventTimestamp { c9wNode with runtime := ⟨[], []⟩ } c9wNet = some 0 ∧
    c9wNode.timeDriver.time ≤ 0 ∧
    ((∃ td1 fired, tdAdvanceToTime 0 c9wNode.timeDriver = some (td1, fired) ∧
      nodeNextStep (fun _ => false) c9wNode c9wNet =
        some (true, { c9wNode with runtime := ⟨[], []⟩, timeDriver := td1 },
          (netAdvanceToTime 0 c9wNet).1)) ∧
    ((netAdvanceToTime 0 c9wNet).2.map Prod.fst).Perm
      (c9wNet.events.filter (fun e => decide (e.timestamp ≤ 0))) ∧
    (netAdvanceToTime 0 c9wNet).1.events.Perm
      (c9wNet.events.filter (fun e => decide (0 < e.timestamp))) ∧
    (netAdvanceToTime 0 c9wNet).1.registry =
      foldDeliver c9wNet.registry ((netAdvanceToTime 0 c9wNet).2.map Prod.fst) ∧
    (∀ reg ev sock, regLookup reg ev.receiver = some (some sock) →
      (deliverOne reg ev).2 = sock.recvWaiters ∧
      (deliverOne reg ev).1 =
        regUpdate reg ev.receiver
          (some ⟨(addDatagram sock.recvBuf ⟨ev.sender, ev.receiver, ev.data⟩).2, []⟩)) ∧
    (∀ b d, (d.data.length + b.len ≤ b.capacity →
        (addDatagram b d).2.buf = b.buf ++ [d]) ∧
      (¬ d.data.length + b.len ≤ b.capacity → (addDatagram b d).2 = b)) ∧
    (∀ reg ev, regLookup reg ev.receiver = none → deliverOne reg ev = (reg, [])) ∧
    (∀ reg ev, regLookup reg ev.receiver = some none → deliverOne reg ev = (reg, []))) :=
  ⟨by decide, by decide, by decide,
   C9_delivery (fun _ => false) c9wNode c9wNet ⟨[], []⟩ 0 (by decide) (by decide)
     (by decide)⟩

end Madsim
